import Mathlib

/-!
Shallow embedding of the startup bootstrap module of the nlp-pipeline
repository (fastapi_app/db_loader.py), together with the PostgreSQL
primitives the module drives through SQL: serial sequences with their
nextval and setval functions, session-scoped advisory locks, transactional
DDL and insert-on-conflict upserts.  The stateful Python code is embedded
as explicit state passing over a database value, with the list of store
statements issued recorded as a trace, and fallible steps returning Except.
-/

namespace NLPipeline

/-- A row of the documents table: serial integer primary key, unique
filename, and text content. -/
structure Doc where
  id : Nat
  filename : String
  content : String
  deriving Repr, DecidableEq

/-- State of a PostgreSQL sequence: the pair exposed by the sequence
object, namely last_value and the is_called flag.  nextval returns
last_value + 1 when is_called is set, and last_value itself otherwise. -/
structure SeqState where
  lastValue : Nat
  isCalled : Bool
  deriving Repr, DecidableEq

/-- A sequence backing a SERIAL column starts at 1 with is_called unset,
so that the first generator-assigned insert receives id 1. -/
def serialInit : SeqState := ⟨1, false⟩

/-- Lower bound (minvalue) of a SERIAL sequence in PostgreSQL. -/
def seqMin : Nat := 1

/-- Upper bound (maxvalue) of a SERIAL sequence: 2 ^ 31 - 1, since SERIAL
is a 32 bit integer column. -/
def seqMax : Nat := 2 ^ 31 - 1

/-- The value produced by nextval in a given sequence state. -/
def nextvalVal (s : SeqState) : Nat :=
  if s.isCalled then s.lastValue + 1 else s.lastValue

/-- nextval: returns the next value and advances the sequence state. -/
def nextval (s : SeqState) : Nat × SeqState :=
  (nextvalVal s, ⟨nextvalVal s, true⟩)

/-- Errors surfaced by the embedded bootstrap run.  engineNotSet models the
RuntimeError raised when the module-level engine was never injected;
osError models an OSError while opening or reading a corpus file;
uniqueViolation models a primary-key collision on a generator-assigned
insert; setvalOutOfBounds models the PostgreSQL error raised by setval
when the requested value lies outside the sequence bounds. -/
inductive LoadError where
  | engineNotSet
  | osError (filename : String)
  | uniqueViolation (filename : String)
  | setvalOutOfBounds (v : Nat)
  deriving Repr, DecidableEq

/-- setval(seq, v, true): sets last_value to v and is_called to true, so
the next nextval yields v + 1.  PostgreSQL raises an error when v lies
outside the bounds minvalue .. maxvalue of the sequence; for the
documents id SERIAL sequence those bounds are 1 .. 2 ^ 31 - 1. -/
def setval (v : Nat) : Except LoadError SeqState :=
  if v < seqMin ∨ seqMax < v then .error (.setvalOutOfBounds v)
  else .ok ⟨v, true⟩

/-- Database state visible to the bootstrap: existence flags for the two
tables and the index, the rows of the documents table in storage order,
and the state of the documents id sequence.  Rows of the analyses table
are never touched by the bootstrap and are not modeled. -/
structure DB where
  documentsTable : Bool
  analysesTable : Bool
  analysesIndex : Bool
  documents : List Doc
  docSeq : SeqState
  deriving Repr, DecidableEq

/-- A completely fresh store: no schema, no rows. -/
def freshDB : DB := ⟨false, false, false, [], serialInit⟩

/-- A store whose schema exists but whose documents table has no rows. -/
def emptyTableDB : DB := ⟨true, true, true, [], serialInit⟩

/-- SELECT COALESCE(MAX(id), 0) FROM documents. -/
def maxId (docs : List Doc) : Nat :=
  docs.foldl (fun m d => max m d.id) 0

/-- Whether some row of the documents table carries the given filename. -/
def hasFilename (docs : List Doc) (fn : String) : Bool :=
  docs.any fun d => d.filename = fn

/-- Store statements issued by the bootstrap, recorded as a trace. -/
inductive StoreOp where
  | tryAdvisoryLock
  | createDocumentsTable
  | createAnalysesTable
  | createAnalysesIndex
  | upsert (filename : String)
  | selectMaxId
  | setvalCall (v : Nat)
  deriving Repr, DecidableEq

/-- CREATE TABLE IF NOT EXISTS documents: when absent, an empty table is
created together with a fresh SERIAL sequence for its id column. -/
def createDocumentsTable (db : DB) : DB :=
  if db.documentsTable then db
  else { db with documentsTable := true, documents := [], docSeq := serialInit }

/-- CREATE TABLE IF NOT EXISTS analyses. -/
def createAnalysesTable (db : DB) : DB :=
  if db.analysesTable then db else { db with analysesTable := true }

/-- CREATE INDEX IF NOT EXISTS idx_analyses_document_id. -/
def createAnalysesIndex (db : DB) : DB :=
  if db.analysesIndex then db else { db with analysesIndex := true }

/-- INSERT INTO documents (filename, content) VALUES (..) ON CONFLICT
(filename) DO UPDATE SET content = EXCLUDED.content.  The id column
default nextval is evaluated for the candidate row before conflict
resolution, so the sequence advances even when the row conflicts and is
turned into an update.  A candidate row whose generated id collides with
an existing primary key while its filename is new raises a unique
violation. -/
def upsertDocument (db : DB) (fn content : String) : Except LoadError DB :=
  if hasFilename db.documents fn then
    .ok { db with
          docSeq := ⟨nextvalVal db.docSeq, true⟩
          documents := db.documents.map fun d =>
            if d.filename = fn then { d with content := content } else d }
  else if db.documents.any (fun d => d.id = nextvalVal db.docSeq) then
    .error (.uniqueViolation fn)
  else
    .ok { db with
          docSeq := ⟨nextvalVal db.docSeq, true⟩
          documents := db.documents ++ [⟨nextvalVal db.docSeq, fn, content⟩] }

/-- Result of opening and reading one corpus file as UTF-8 text: the
decoded content, a UnicodeDecodeError, or any other OS-level error. -/
inductive ReadOutcome where
  | ok (content : String)
  | decodeError
  | osError
  deriving Repr, DecidableEq

/-- One entry of the corpus directory: its name and what reading it as
UTF-8 yields. -/
structure TxtFile where
  name : String
  read : ReadOutcome
  deriving Repr, DecidableEq

/-- The corpus directory as checked by TEXT_DIR.exists and
TEXT_DIR.is_dir: absent, present but not a directory, or a directory with
its entries. -/
inductive CorpusDir where
  | missing
  | notADirectory
  | dir (files : List TxtFile)
  deriving Repr, DecidableEq

/-- The extension filter of TEXT_DIR.glob: names ending in the text
extension. -/
def txtExt : String := ".txt"

/-- Whether the first code point list ends with the second. -/
def endsWithChars (name suffix : List Char) : Bool :=
  decide (suffix.length ≤ name.length) &&
    decide (name.drop (name.length - suffix.length) = suffix)

/-- Whether a directory entry matches the glob pattern of the loader. -/
def isTxt (f : TxtFile) : Bool := endsWithChars (f.name).data txtExt.data

/-- Lexicographic order on code point lists, the order Python uses to
compare path strings. -/
def nameLeChars : List Char → List Char → Bool
  | [], _ => true
  | _ :: _, [] => false
  | a :: as, b :: bs =>
    if a.toNat = b.toNat then nameLeChars as bs else decide (a.toNat < b.toNat)

/-- Name order used by sorted(TEXT_DIR.glob(..)). -/
def fileLe (a b : TxtFile) : Bool := nameLeChars (a.name).data (b.name).data

/-- Insertion into a sorted file list. -/
def insertSortedFile (f : TxtFile) : List TxtFile → List TxtFile
  | [] => [f]
  | g :: rest => if fileLe f g then f :: g :: rest else g :: insertSortedFile f rest

/-- Insertion sort by file name, the deterministic order in which the
loader visits directory entries. -/
def sortFiles : List TxtFile → List TxtFile
  | [] => []
  | f :: rest => insertSortedFile f (sortFiles rest)

/-- sorted(TEXT_DIR.glob(pattern)): the matching entries in name order. -/
def globTxtSorted (files : List TxtFile) : List TxtFile :=
  sortFiles (files.filter isTxt)

/-- The corpus loading loop of load_txt_files_to_db: for each file in
order, read it as UTF-8; on a decode error skip the file and continue; on
any other read error the exception propagates and aborts the loop;
otherwise upsert the document by filename.  The trace records each upsert
statement issued. -/
def loadFiles : DB → List TxtFile → List StoreOp → Except LoadError DB × List StoreOp
  | db, [], ops => (.ok db, ops)
  | db, f :: rest, ops =>
    match f.read with
    | .decodeError => loadFiles db rest ops
    | .osError => (.error (.osError f.name), ops)
    | .ok content =>
      match upsertDocument db f.name content with
      | .error e => (.error e, ops ++ [.upsert f.name])
      | .ok db2 => loadFiles db2 rest (ops ++ [.upsert f.name])

/-- _set_documents_sequence: reads COALESCE(MAX(id), 0) over documents and
issues setval(pg_get_serial_sequence(documents, id), max_id, true). -/
def set_documents_sequence (db : DB) : Except LoadError DB :=
  match setval (maxId db.documents) with
  | .error e => .error e
  | .ok s => .ok { db with docSeq := s }

/-- The DDL prelude of the bootstrap: both CREATE TABLE IF NOT EXISTS
statements and the CREATE INDEX IF NOT EXISTS statement, in source
order. -/
def schemaStep (db : DB) : DB :=
  createAnalysesIndex (createAnalysesTable (createDocumentsTable db))

/-- The corpus loading step of the bootstrap: when the corpus directory is
missing or not a directory, a warning is logged and no statement is
issued; otherwise the matching files are visited in name order. -/
def corpusStep (db : DB) (dir : CorpusDir) (ops : List StoreOp) :
    Except LoadError DB × List StoreOp :=
  match dir with
  | .missing => (.ok db, ops)
  | .notADirectory => (.ok db, ops)
  | .dir files => loadFiles db (globTxtSorted files) ops

/-- The sequence repair step of the bootstrap: the call to
_set_documents_sequence, recording its two statements in the trace. -/
def seqRepairStep (db : DB) (ops : List StoreOp) :
    Except LoadError (DB × Option Nat) × List StoreOp :=
  match set_documents_sequence db with
  | .error e => (.error e, ops ++ [.selectMaxId, .setvalCall (maxId db.documents)])
  | .ok db5 => (.ok (db5, none), ops ++ [.selectMaxId, .setvalCall (maxId db.documents)])

/-- The write path of load_txt_files_to_db, executed only by the session
that acquired the advisory lock: schema creation, corpus loading and
sequence repair.  Returns the working database state paired with the
Python return value (always None) on success, or the raised error;
alongside, the trace of store statements issued so far. -/
def bodyAfterLock (db : DB) (dir : CorpusDir) (ops : List StoreOp) :
    Except LoadError (DB × Option Nat) × List StoreOp :=
  match corpusStep (schemaStep db) dir
      (ops ++ [.createDocumentsTable, .createAnalysesTable, .createAnalysesIndex]) with
  | (.error e, ops2) => (.error e, ops2)
  | (.ok db4, ops2) => seqRepairStep db4 ops2

/-- The transaction body of load_txt_files_to_db, from the advisory lock
attempt to sequence repair.  lockAvailable tells whether
pg_try_advisory_lock grants the lock to this session. -/
def runBody (db : DB) (lockAvailable : Bool) (dir : CorpusDir) :
    Except LoadError (DB × Option Nat) × List StoreOp :=
  let locked := lockAvailable
  let ops : List StoreOp := [.tryAdvisoryLock]
  if !locked then
    (.ok (db, none), ops)
  else
    bodyAfterLock db dir ops

instance {ε α : Type} [DecidableEq ε] [DecidableEq α] : DecidableEq (Except ε α) := fun a b =>
  match a, b with
  | .ok x, .ok y =>
    if h : x = y then .isTrue (by rw [h]) else .isFalse (by intro hc; cases hc; exact h rfl)
  | .error x, .error y =>
    if h : x = y then .isTrue (by rw [h]) else .isFalse (by intro hc; cases hc; exact h rfl)
  | .ok _, .error _ => .isFalse (by intro hc; cases hc)
  | .error _, .ok _ => .isFalse (by intro hc; cases hc)

/-- Outcome of one invocation of load_txt_files_to_db: the returned value
or raised error, the committed database state, and the trace of store
statements issued (statements of a rolled back transaction still appear
in the trace, their effects do not appear in the committed state). -/
structure RunResult where
  result : Except LoadError (Option Nat)
  db : DB
  ops : List StoreOp
  deriving Repr, DecidableEq

/-- load_txt_files_to_db.  The engine argument models the module-level
engine injected by set_engine (none when set_engine was never called).
The session transaction opened by engine.begin commits the working state
on success and rolls every write back when the body raises, surfacing the
error to the caller. -/
def load_txt_files_to_db (engine : Option Unit) (lockAvailable : Bool)
    (dir : CorpusDir) (db : DB) : RunResult :=
  match engine with
  | none => ⟨.error .engineNotSet, db, []⟩
  | some _ =>
    match runBody db lockAvailable dir with
    | (.ok (db2, v), ops) => ⟨.ok v, db2, ops⟩
    | (.error e, ops) => ⟨.error e, db, ops⟩

/-! ### Helper lemmas -/

theorem loadFiles_ok_no_osError {db db2 : DB} {fs : List TxtFile} {ops ops2 : List StoreOp}
    (h : loadFiles db fs ops = (.ok db2, ops2)) :
    ∀ f ∈ fs, f.read ≠ ReadOutcome.osError := by
  induction fs generalizing db ops with
  | nil => intro f hf; exact absurd hf (List.not_mem_nil f)
  | cons g rest ih =>
    intro f hf hread
    rw [loadFiles] at h
    split at h
    case _ hg =>
      rcases List.mem_cons.mp hf with rfl | hmem
      · rw [hg] at hread; cases hread
      · exact ih h f hmem hread
    case _ hg => cases h
    case _ content hg =>
      rcases List.mem_cons.mp hf with rfl | hmem
      · rw [hg] at hread; cases hread
      · split at h
        · cases h
        · exact ih h f hmem hread

theorem load_error_rollback {engine : Option Unit} {lock : Bool} {dir : CorpusDir}
    {db : DB} {e : LoadError}
    (h : (load_txt_files_to_db engine lock dir db).result = .error e) :
    (load_txt_files_to_db engine lock dir db).db = db := by
  cases engine with
  | none => rfl
  | some u =>
    rw [load_txt_files_to_db] at h ⊢
    rcases hrb : runBody db lock dir with ⟨r, ops⟩
    rw [hrb] at h
    cases r with
    | ok p =>
      rcases p with ⟨db2, v⟩
      simp at h
    | error e2 => rfl

theorem seqRepairStep_ok_value_none {db db2 : DB} {ops ops2 : List StoreOp} {v : Option Nat}
    (h : seqRepairStep db ops = (.ok (db2, v), ops2)) : v = none := by
  rw [seqRepairStep] at h
  split at h
  · cases h
  · cases h; rfl

theorem bodyAfterLock_ok_value_none {db db2 : DB} {dir : CorpusDir}
    {ops ops2 : List StoreOp} {v : Option Nat}
    (h : bodyAfterLock db dir ops = (.ok (db2, v), ops2)) : v = none := by
  rw [bodyAfterLock] at h
  split at h
  · cases h
  case _ db4 ops3 hc => exact seqRepairStep_ok_value_none h

theorem loadFiles_error_not_engineNotSet {db : DB} {fs : List TxtFile}
    {ops ops2 : List StoreOp} {e : LoadError}
    (h : loadFiles db fs ops = (.error e, ops2)) : e ≠ LoadError.engineNotSet := by
  induction fs generalizing db ops with
  | nil => cases h
  | cons g rest ih =>
    rw [loadFiles] at h
    split at h
    · exact ih h
    · cases h; intro hc; cases hc
    case _ content hg =>
      split at h
      case _ e2 hu =>
        cases h
        rw [upsertDocument] at hu
        split at hu
        · cases hu
        · split at hu
          · cases hu; intro hc; cases hc
          · cases hu
      case _ dbNext hu => exact ih h

theorem set_documents_sequence_error_shape {db : DB} {e : LoadError}
    (h : set_documents_sequence db = .error e) :
    e = .setvalOutOfBounds (maxId db.documents) := by
  rw [set_documents_sequence] at h
  split at h
  case _ e2 heq =>
    cases h
    rw [setval] at heq
    split at heq
    · cases heq; rfl
    · cases heq
  case _ s heq => cases h

theorem seqRepairStep_error_not_engineNotSet {db : DB} {ops ops2 : List StoreOp}
    {e : LoadError} (h : seqRepairStep db ops = (.error e, ops2)) :
    e ≠ LoadError.engineNotSet := by
  rw [seqRepairStep] at h
  split at h
  case _ e2 hs =>
    cases h
    rw [set_documents_sequence_error_shape hs]
    intro hc; cases hc
  · cases h

theorem bodyAfterLock_error_not_engineNotSet {db : DB} {dir : CorpusDir}
    {ops ops2 : List StoreOp} {e : LoadError}
    (h : bodyAfterLock db dir ops = (.error e, ops2)) : e ≠ LoadError.engineNotSet := by
  rw [bodyAfterLock] at h
  split at h
  case _ e2 ops3 hc =>
    cases h
    rcases dir with _ | _ | files
    · simp [corpusStep] at hc
    · simp [corpusStep] at hc
    · rw [corpusStep] at hc
      exact loadFiles_error_not_engineNotSet hc
  case _ db4 ops3 hc => exact seqRepairStep_error_not_engineNotSet h

/-- Whether a file would survive UTF-8 decoding (used to compare a run
with the run on the directory purged of undecodable files). -/
def notDecodeErr (f : TxtFile) : Bool :=
  match f.read with
  | .decodeError => false
  | .osError => true
  | .ok _ => true

theorem loadFiles_filter_decode (db : DB) (files : List TxtFile) (ops : List StoreOp) :
    loadFiles db (files.filter notDecodeErr) ops = loadFiles db files ops := by
  induction files generalizing db ops with
  | nil => rfl
  | cons g rest ih =>
    rw [List.filter_cons]
    cases hg : g.read with
    | decodeError =>
      rw [show notDecodeErr g = false by rw [notDecodeErr, hg]]
      simp only [Bool.false_eq_true, if_false]
      conv_rhs => rw [loadFiles, hg]
      exact ih db ops
    | osError =>
      rw [show notDecodeErr g = true by rw [notDecodeErr, hg]]
      simp only [if_true]
      rw [loadFiles, loadFiles, hg]
    | ok c =>
      rw [show notDecodeErr g = true by rw [notDecodeErr, hg]]
      simp only [if_true]
      rw [loadFiles, loadFiles, hg]
      dsimp only
      cases hu : upsertDocument db g.name c with
      | error e => rfl
      | ok db2 => exact ih db2 (ops ++ [.upsert g.name])

theorem insertSortedFile_perm (f : TxtFile) (l : List TxtFile) :
    List.Perm (insertSortedFile f l) (f :: l) := by
  induction l with
  | nil => exact List.Perm.refl _
  | cons g rest ih =>
    rw [insertSortedFile]
    split
    · exact List.Perm.refl _
    · exact (List.Perm.cons g ih).trans (List.Perm.swap f g rest)

theorem sortFiles_perm (l : List TxtFile) : List.Perm (sortFiles l) l := by
  induction l with
  | nil => exact List.Perm.refl _
  | cons f rest ih =>
    rw [sortFiles]
    exact (insertSortedFile_perm f (sortFiles rest)).trans (List.Perm.cons f ih)

theorem mem_globTxtSorted {f : TxtFile} {files : List TxtFile}
    (hmem : f ∈ files) (htxt : isTxt f = true) : f ∈ globTxtSorted files := by
  rw [globTxtSorted]
  exact ((sortFiles_perm _).mem_iff).mpr (List.mem_filter.mpr ⟨hmem, htxt⟩)

theorem runBody_error_not_engineNotSet {db : DB} {lock : Bool} {dir : CorpusDir}
    {e : LoadError} {ops : List StoreOp}
    (h : runBody db lock dir = (.error e, ops)) : e ≠ LoadError.engineNotSet := by
  cases lock with
  | false =>
    rw [show runBody db false dir = (.ok (db, none), [.tryAdvisoryLock]) from rfl] at h
    simp at h
  | true => exact bodyAfterLock_error_not_engineNotSet h

theorem runBody_ok_value_none {db db2 : DB} {lock : Bool} {dir : CorpusDir}
    {ops : List StoreOp} {v : Option Nat}
    (h : runBody db lock dir = (.ok (db2, v), ops)) : v = none := by
  cases lock with
  | false =>
    rw [show runBody db false dir = (.ok (db, none), [.tryAdvisoryLock]) from rfl] at h
    simp at h
    exact h.1.2.symm
  | true => exact bodyAfterLock_ok_value_none h

/-! ### Lemmas about single upserts -/

theorem map_self_of_mem {α : Type} (l : List α) (f : α → α) (h : ∀ a ∈ l, f a = a) :
    l.map f = l := by
  induction l with
  | nil => rfl
  | cons a rest ih =>
    rw [List.map_cons, h a (List.mem_cons_self a rest),
      ih (fun b hb => h b (List.mem_cons_of_mem a hb))]

theorem hasFilename_true_iff {docs : List Doc} {fn : String} :
    hasFilename docs fn = true ↔ ∃ d ∈ docs, d.filename = fn := by
  rw [hasFilename]
  simp [List.any_eq_true]

theorem hasFilename_false_iff {docs : List Doc} {fn : String} :
    hasFilename docs fn = false ↔ ∀ d ∈ docs, d.filename ≠ fn := by
  rw [hasFilename]
  simp [List.any_eq_false]

theorem upsertDocument_ok_cases {db db2 : DB} {fn c : String}
    (h : upsertDocument db fn c = .ok db2) :
    (hasFilename db.documents fn = true ∧
      db2.documents = db.documents.map fun d =>
        if d.filename = fn then { d with content := c } else d) ∨
    (hasFilename db.documents fn = false ∧
      db2.documents = db.documents ++ [⟨nextvalVal db.docSeq, fn, c⟩]) := by
  rw [upsertDocument] at h
  split at h
  case _ hf =>
    cases h
    exact Or.inl ⟨hf, rfl⟩
  case _ hf =>
    split at h
    · cases h
    · cases h
      exact Or.inr ⟨Bool.not_eq_true _ ▸ Bool.of_not_eq_true hf, rfl⟩

theorem upsert_other_rows_back {db db2 : DB} {fn c gn : String}
    (hne : gn ≠ fn) (h : upsertDocument db fn c = .ok db2) :
    ∀ d ∈ db2.documents, d.filename = gn → d ∈ db.documents := by
  intro d hd hdg
  rcases upsertDocument_ok_cases h with ⟨hf, hdocs⟩ | ⟨hf, hdocs⟩
  · rw [hdocs] at hd
    rcases List.mem_map.mp hd with ⟨d0, hd0, hmap⟩
    by_cases h0 : d0.filename = fn
    · exfalso
      rw [if_pos h0] at hmap
      rw [← hmap] at hdg
      exact hne (hdg ▸ h0.symm ▸ rfl)
    · rw [if_neg h0] at hmap
      rw [← hmap]
      exact hd0
  · rw [hdocs] at hd
    rcases List.mem_append.mp hd with hd | hd
    · exact hd
    · exfalso
      rcases List.mem_singleton.mp hd with rfl
      exact hne hdg.symm

theorem upsert_presence_forward {db db2 : DB} {fn c gn : String}
    (h : upsertDocument db fn c = .ok db2)
    (hex : ∃ d ∈ db.documents, d.filename = gn) :
    ∃ d ∈ db2.documents, d.filename = gn := by
  rcases hex with ⟨d0, hd0, hg⟩
  rcases upsertDocument_ok_cases h with ⟨hf, hdocs⟩ | ⟨hf, hdocs⟩
  · refine ⟨if d0.filename = fn then { d0 with content := c } else d0, ?_, ?_⟩
    · rw [hdocs]
      exact List.mem_map.mpr ⟨d0, hd0, rfl⟩
    · split <;> exact hg
  · exact ⟨d0, by rw [hdocs]; exact List.mem_append_left _ hd0, hg⟩

theorem upsert_self_present {db db2 : DB} {fn c : String}
    (h : upsertDocument db fn c = .ok db2) :
    ∃ d ∈ db2.documents, d.filename = fn := by
  rcases upsertDocument_ok_cases h with ⟨hf, hdocs⟩ | ⟨hf, hdocs⟩
  · rcases hasFilename_true_iff.mp hf with ⟨d0, hd0, hg⟩
    exact upsert_presence_forward h ⟨d0, hd0, hg⟩
  · exact ⟨⟨nextvalVal db.docSeq, fn, c⟩,
      by rw [hdocs]; exact List.mem_append_right _ (List.mem_singleton_self _), rfl⟩

theorem upsert_self_content {db db2 : DB} {fn c : String}
    (h : upsertDocument db fn c = .ok db2) :
    ∀ d ∈ db2.documents, d.filename = fn → d.content = c := by
  intro d hd hdf
  rcases upsertDocument_ok_cases h with ⟨hf, hdocs⟩ | ⟨hf, hdocs⟩
  · rw [hdocs] at hd
    rcases List.mem_map.mp hd with ⟨d0, hd0, hmap⟩
    by_cases h0 : d0.filename = fn
    · rw [if_pos h0] at hmap
      rw [← hmap]
    · exfalso
      rw [if_neg h0] at hmap
      rw [← hmap] at hdf
      exact h0 hdf
  · rw [hdocs] at hd
    rcases List.mem_append.mp hd with hd | hd
    · exact absurd hdf (hasFilename_false_iff.mp hf d hd)
    · rcases List.mem_singleton.mp hd with rfl
      rfl

theorem upsert_update_identity {db db2 : DB} {fn c : String}
    (hpres : ∃ d ∈ db.documents, d.filename = fn)
    (hcont : ∀ d ∈ db.documents, d.filename = fn → d.content = c) :
    upsertDocument db fn c = .ok db2 → db2.documents = db.documents := by
  intro h
  rcases upsertDocument_ok_cases h with ⟨hf, hdocs⟩ | ⟨hf, hdocs⟩
  · rw [hdocs]
    refine map_self_of_mem _ _ (fun d hd => ?_)
    by_cases h0 : d.filename = fn
    · rw [if_pos h0]
      have hc := hcont d hd h0
      cases d
      simp only at hc
      rw [hc]
    · rw [if_neg h0]
  · exfalso
    rcases hpres with ⟨d0, hd0, hg⟩
    exact hasFilename_false_iff.mp hf d0 hd0 hg

theorem upsert_update_branch_ok {db : DB} {fn c : String}
    (hf : hasFilename db.documents fn = true) :
    upsertDocument db fn c
      = .ok { db with
              docSeq := ⟨nextvalVal db.docSeq, true⟩
              documents := db.documents.map fun d =>
                if d.filename = fn then { d with content := c } else d } := by
  rw [upsertDocument, if_pos hf]

theorem upsert_insert_length {db db2 : DB} {fn c : String}
    (hf : hasFilename db.documents fn = false)
    (h : upsertDocument db fn c = .ok db2) :
    db2.documents.length = db.documents.length + 1 := by
  rcases upsertDocument_ok_cases h with ⟨hf2, hdocs⟩ | ⟨hf2, hdocs⟩
  · rw [hf] at hf2; cases hf2
  · rw [hdocs, List.length_append]
    rfl

theorem upsert_update_exists {db : DB} {fn c : String}
    (hpres : ∃ d ∈ db.documents, d.filename = fn)
    (hcont : ∀ d ∈ db.documents, d.filename = fn → d.content = c) :
    ∃ dbU, upsertDocument db fn c = .ok dbU ∧ dbU.documents = db.documents := by
  have hf : hasFilename db.documents fn = true := hasFilename_true_iff.mpr hpres
  exact ⟨_, upsert_update_branch_ok hf,
    upsert_update_identity hpres hcont (upsert_update_branch_ok hf)⟩

/-- Whether a file decodes as UTF-8 (the files the loader actually
upserts). -/
def isDecodable (f : TxtFile) : Bool :=
  match f.read with
  | .ok _ => true
  | .decodeError => false
  | .osError => false

/-! ### Lemmas about the corpus loading loop -/

theorem loadFiles_other_rows_back {db db2 : DB} {fs : List TxtFile} {ops ops2 : List StoreOp}
    {gn : String} (hne : ∀ f ∈ fs, f.name ≠ gn)
    (h : loadFiles db fs ops = (.ok db2, ops2)) :
    ∀ d ∈ db2.documents, d.filename = gn → d ∈ db.documents := by
  induction fs generalizing db ops with
  | nil => cases h; exact fun d hd _ => hd
  | cons g rest ih =>
    rw [loadFiles] at h
    split at h
    · exact ih (fun f hf => hne f (List.mem_cons_of_mem g hf)) h
    · cases h
    case _ content hg =>
      split at h
      · cases h
      case _ dbNext hu =>
        intro d hd hdg
        have hd2 := ih (fun f hf => hne f (List.mem_cons_of_mem g hf)) h d hd hdg
        exact upsert_other_rows_back (hne g (List.mem_cons_self g rest)).symm hu d hd2 hdg

theorem loadFiles_presence_forward {db db2 : DB} {fs : List TxtFile} {ops ops2 : List StoreOp}
    {gn : String} (h : loadFiles db fs ops = (.ok db2, ops2))
    (hex : ∃ d ∈ db.documents, d.filename = gn) :
    ∃ d ∈ db2.documents, d.filename = gn := by
  induction fs generalizing db ops with
  | nil => cases h; exact hex
  | cons g rest ih =>
    rw [loadFiles] at h
    split at h
    · exact ih h hex
    · cases h
    case _ content hg =>
      split at h
      · cases h
      case _ dbNext hu => exact ih h (upsert_presence_forward hu hex)

theorem loadFiles_final_rows {db db2 : DB} {fs : List TxtFile} {ops ops2 : List StoreOp}
    (hnd : (fs.map TxtFile.name).Nodup)
    (h : loadFiles db fs ops = (.ok db2, ops2)) :
    ∀ f ∈ fs, ∀ c, f.read = .ok c →
      (∃ d ∈ db2.documents, d.filename = f.name) ∧
      (∀ d ∈ db2.documents, d.filename = f.name → d.content = c) := by
  induction fs generalizing db ops with
  | nil => intro f hf; exact absurd hf (List.not_mem_nil f)
  | cons g rest ih =>
    rw [List.map_cons] at hnd
    have hgn : g.name ∉ rest.map TxtFile.name := (List.nodup_cons.mp hnd).1
    have hndr := (List.nodup_cons.mp hnd).2
    intro f hf c hc
    rw [loadFiles] at h
    split at h
    case _ hg =>
      rcases List.mem_cons.mp hf with rfl | hmem
      · rw [hg] at hc; cases hc
      · exact ih hndr h f hmem c hc
    case _ hg => cases h
    case _ content hg =>
      rcases List.mem_cons.mp hf with rfl | hmem
      · rw [hg] at hc
        injection hc with hc2
        subst hc2
        split at h
        · cases h
        case _ dbNext hu =>
          have hrest : ∀ f2 ∈ rest, f2.name ≠ f.name := by
            intro f2 hf2 hcn
            exact hgn (hcn ▸ List.mem_map_of_mem TxtFile.name hf2)
          constructor
          · exact loadFiles_presence_forward h (upsert_self_present hu)
          · intro d hd hdg
            exact upsert_self_content hu d (loadFiles_other_rows_back hrest h d hd hdg) hdg
      · split at h
        · cases h
        case _ dbNext hu => exact ih hndr h f hmem c hc

theorem loadFiles_update_only {db : DB} {fs : List TxtFile} {ops : List StoreOp}
    (hos : ∀ f ∈ fs, f.read ≠ ReadOutcome.osError)
    (hrows : ∀ f ∈ fs, ∀ c, f.read = .ok c →
      (∃ d ∈ db.documents, d.filename = f.name) ∧
      (∀ d ∈ db.documents, d.filename = f.name → d.content = c)) :
    ∃ db2 ops2, loadFiles db fs ops = (.ok db2, ops2) ∧ db2.documents = db.documents := by
  induction fs generalizing db ops with
  | nil => exact ⟨db, ops, rfl, rfl⟩
  | cons g rest ih =>
    cases hg : g.read with
    | decodeError =>
      rcases ih (fun f hf => hos f (List.mem_cons_of_mem g hf))
        (fun f hf => hrows f (List.mem_cons_of_mem g hf)) with ⟨db2, ops2, hload, hdocs⟩
      exact ⟨db2, ops2, by rw [loadFiles, hg]; exact hload, hdocs⟩
    | osError => exact absurd hg (hos g (List.mem_cons_self g rest))
    | ok c =>
      have hr := hrows g (List.mem_cons_self g rest) c hg
      rcases upsert_update_exists hr.1 hr.2 with ⟨dbU, hu, hdocsU⟩
      rcases @ih dbU (ops ++ [.upsert g.name])
        (fun f hf => hos f (List.mem_cons_of_mem g hf))
        (fun f hf c2 hc2 => by
          rw [hdocsU]
          exact hrows f (List.mem_cons_of_mem g hf) c2 hc2)
        with ⟨db2, ops2, hload, hdocs⟩
      refine ⟨db2, ops2, ?_, hdocs.trans hdocsU⟩
      rw [loadFiles, hg]
      dsimp only
      rw [hu]
      exact hload

theorem loadFiles_insert_length {db db2 : DB} {fs : List TxtFile} {ops ops2 : List StoreOp}
    (hnd : (fs.map TxtFile.name).Nodup)
    (hfresh : ∀ f ∈ fs, hasFilename db.documents f.name = false)
    (h : loadFiles db fs ops = (.ok db2, ops2)) :
    db2.documents.length = db.documents.length + (fs.filter isDecodable).length := by
  induction fs generalizing db ops with
  | nil => cases h; rfl
  | cons g rest ih =>
    rw [List.map_cons] at hnd
    have hgn : g.name ∉ rest.map TxtFile.name := (List.nodup_cons.mp hnd).1
    have hndr := (List.nodup_cons.mp hnd).2
    rw [loadFiles] at h
    split at h
    case _ hg =>
      rw [List.filter_cons, show isDecodable g = false by rw [isDecodable, hg]]
      simp only [Bool.false_eq_true, if_false]
      exact ih hndr (fun f hf => hfresh f (List.mem_cons_of_mem g hf)) h
    case _ hg => cases h
    case _ content hg =>
      split at h
      · cases h
      case _ dbNext hu =>
        rw [List.filter_cons, show isDecodable g = true by rw [isDecodable, hg]]
        simp only [if_true]
        have hfg := hfresh g (List.mem_cons_self g rest)
        have hlen := upsert_insert_length hfg hu
        have hfreshNext : ∀ f ∈ rest, hasFilename dbNext.documents f.name = false := by
          intro f hf
          refine hasFilename_false_iff.mpr ?_
          intro d hd hdf
          rcases upsertDocument_ok_cases hu with ⟨hf2, hdocs⟩ | ⟨hf2, hdocs⟩
          · rw [hfg] at hf2; cases hf2
          · rw [hdocs] at hd
            rcases List.mem_append.mp hd with hd | hd
            · exact hasFilename_false_iff.mp (hfresh f (List.mem_cons_of_mem g hf)) d hd hdf
            · rcases List.mem_singleton.mp hd with rfl
              refine hgn ?_
              rw [show TxtFile.name g = TxtFile.name f from hdf]
              exact List.mem_map_of_mem TxtFile.name hf
        rw [ih hndr hfreshNext h, hlen, List.length_cons]
        omega

theorem globTxtSorted_names_nodup {files : List TxtFile}
    (h : (files.map TxtFile.name).Nodup) :
    ((globTxtSorted files).map TxtFile.name).Nodup := by
  have h2 : ((files.filter isTxt).map TxtFile.name).Nodup :=
    ((List.filter_sublist files).map TxtFile.name).nodup h
  have hperm : ((globTxtSorted files).map TxtFile.name).Perm
      ((files.filter isTxt).map TxtFile.name) :=
    (sortFiles_perm (files.filter isTxt)).map TxtFile.name
  exact hperm.nodup_iff.mpr h2

/-! ### Claim theorems -/

/-- C1: when the non-blocking acquisition of the fixed-key advisory lock
fails, load_txt_files_to_db returns normally, the committed database
state is unchanged, and the only store statement issued is the lock
attempt itself: no DDL, no document upsert, no sequence modification. -/
theorem lock_unavailable_is_successful_noop (dir : CorpusDir) (db : DB) :
    load_txt_files_to_db (some ()) false dir db
      = ⟨.ok none, db, [.tryAdvisoryLock]⟩ := rfl

/-- C2: the bootstrap transaction is atomic: whenever
load_txt_files_to_db surfaces an error, the committed database state is
exactly the initial one, so no bootstrap attempt commits a proper subset
of its writes. -/
theorem bootstrap_atomic_rollback (engine : Option Unit) (lock : Bool)
    (dir : CorpusDir) (db : DB) (e : LoadError)
    (h : (load_txt_files_to_db engine lock dir db).result = .error e) :
    (load_txt_files_to_db engine lock dir db).db = db :=
  load_error_rollback h

/-- Witness for C2: a run that fails midway through corpus loading (after
schema creation and one successful upsert) commits nothing. -/
theorem bootstrap_atomic_rollback_witness :
    (load_txt_files_to_db (some ()) true
        (.dir [⟨("a.txt"), .ok ("X")⟩, ⟨("c.txt"), .osError⟩]) freshDB).result
      = .error (.osError ("c.txt")) ∧
    (load_txt_files_to_db (some ()) true
        (.dir [⟨("a.txt"), .ok ("X")⟩, ⟨("c.txt"), .osError⟩]) freshDB).db = freshDB :=
  ⟨by decide,
   bootstrap_atomic_rollback (some ()) true
     (.dir [⟨("a.txt"), .ok ("X")⟩, ⟨("c.txt"), .osError⟩]) freshDB
     (.osError ("c.txt")) (by decide)⟩

/-- C3: sequence repair reads COALESCE(MAX(id), 0); on the table holding
exactly the explicit ids 5, 12 and 3 it sets the sequence to 12 with the
is_called flag, so the next generator-assigned insert receives id 13,
colliding with none of 5, 12, 3.  On a table with zero rows, however, it
does not succeed: it issues setval(.., 0, true), which PostgreSQL rejects
because 0 lies below the minvalue 1 of the SERIAL sequence. -/
theorem sequence_repair_empty_table_and_explicit_ids :
    set_documents_sequence emptyTableDB = .error (.setvalOutOfBounds 0) ∧
    (set_documents_sequence
        { emptyTableDB with
          documents := [⟨5, ("e.txt"), ("p")⟩, ⟨12, ("f.txt"), ("q")⟩, ⟨3, ("g.txt"), ("r")⟩] }
      = .ok { emptyTableDB with
              documents := [⟨5, ("e.txt"), ("p")⟩, ⟨12, ("f.txt"), ("q")⟩, ⟨3, ("g.txt"), ("r")⟩]
              docSeq := ⟨12, true⟩ }) ∧
    nextvalVal ⟨12, true⟩ = 13 ∧ 13 ≠ 5 ∧ 13 ≠ 12 ∧ 13 ≠ 3 := by decide

/-- C6: on a fresh store with the corpus directory missing, the corpus is
treated as empty and no upsert is issued, but the bootstrap does not
complete successfully: sequence repair over the empty documents table
issues setval(.., 0, true), PostgreSQL rejects the out-of-bounds value,
and the whole transaction (including schema creation) rolls back. -/
theorem missing_corpus_dir_bootstrap_fails_on_fresh_store :
    load_txt_files_to_db (some ()) true .missing freshDB
      = ⟨.error (.setvalOutOfBounds 0), freshDB,
         [.tryAdvisoryLock, .createDocumentsTable, .createAnalysesTable,
          .createAnalysesIndex, .selectMaxId, .setvalCall 0]⟩ := by decide

/-- C5: a corpus file whose content fails UTF-8 decoding is skipped and
processing continues with the next file: the corpus loading loop behaves
exactly as if the undecodable files were absent from the directory, so a
bad file never aborts the batch; in particular a directory holding one
malformed file and one valid file loads exactly the valid document and
raises no error. -/
theorem bad_file_isolation :
    (∀ (db : DB) (files : List TxtFile) (ops : List StoreOp),
        loadFiles db (files.filter notDecodeErr) ops = loadFiles db files ops) ∧
    (load_txt_files_to_db (some ()) true
        (.dir [⟨("bad.txt"), .decodeError⟩, ⟨("good.txt"), .ok ("hello")⟩]) freshDB).result
      = .ok none ∧
    (load_txt_files_to_db (some ()) true
        (.dir [⟨("bad.txt"), .decodeError⟩, ⟨("good.txt"), .ok ("hello")⟩]) freshDB).db.documents
      = [⟨1, ("good.txt"), ("hello")⟩] :=
  ⟨loadFiles_filter_decode, by decide, by decide⟩

/-- C4 counterexample: the final document table state after a corpus load
does not depend only on the final directory contents.  Loading the
directory with files a.txt and b.txt into an empty table in one step
assigns ids 1 and 2 in name order, while first loading the directory when
it held only b.txt and then reloading after a.txt appeared assigns b.txt
id 1 and a.txt id 2: same final directory, different document tables. -/
theorem corpus_load_history_dependent :
    (corpusStep emptyTableDB
        (.dir [⟨("a.txt"), .ok ("X")⟩, ⟨("b.txt"), .ok ("Y")⟩]) []).1
      = .ok { emptyTableDB with
              documents := [⟨1, ("a.txt"), ("X")⟩, ⟨2, ("b.txt"), ("Y")⟩]
              docSeq := ⟨2, true⟩ } ∧
    (corpusStep emptyTableDB (.dir [⟨("b.txt"), .ok ("Y")⟩]) []).1
      = .ok { emptyTableDB with
              documents := [⟨1, ("b.txt"), ("Y")⟩]
              docSeq := ⟨1, true⟩ } ∧
    (corpusStep
        { emptyTableDB with
          documents := [⟨1, ("b.txt"), ("Y")⟩]
          docSeq := ⟨1, true⟩ }
        (.dir [⟨("a.txt"), .ok ("X")⟩, ⟨("b.txt"), .ok ("Y")⟩]) []).1
      = .ok { emptyTableDB with
              documents := [⟨1, ("b.txt"), ("Y")⟩, ⟨2, ("a.txt"), ("X")⟩]
              docSeq := ⟨3, true⟩ } ∧
    ([(⟨1, ("a.txt"), ("X")⟩ : Doc), ⟨2, ("b.txt"), ("Y")⟩]
        ≠ [(⟨1, ("b.txt"), ("Y")⟩ : Doc), ⟨2, ("a.txt"), ("X")⟩]) ∧
    (⟨2, ("b.txt"), ("Y")⟩ : Doc) ∈ [(⟨1, ("a.txt"), ("X")⟩ : Doc), ⟨2, ("b.txt"), ("Y")⟩] ∧
    (⟨2, ("b.txt"), ("Y")⟩ : Doc) ∉ [(⟨1, ("b.txt"), ("Y")⟩ : Doc), ⟨2, ("a.txt"), ("X")⟩] := by
  decide

/-- C7 counterexample: load_txt_files_to_db returns None, not the number
of files processed: on a directory with two matching files that are both
loaded, the returned value is None rather than 2. -/
theorem loader_returns_no_count :
    (load_txt_files_to_db (some ()) true
        (.dir [⟨("a.txt"), .ok ("X")⟩, ⟨("b.txt"), .ok ("Y")⟩]) freshDB).result
      = .ok none ∧
    (load_txt_files_to_db (some ()) true
        (.dir [⟨("a.txt"), .ok ("X")⟩, ⟨("b.txt"), .ok ("Y")⟩]) freshDB).db.documents.length
      = 2 ∧
    (load_txt_files_to_db (some ()) true
        (.dir [⟨("a.txt"), .ok ("X")⟩, ⟨("b.txt"), .ok ("Y")⟩]) freshDB).result
      ≠ .ok (some 2) := by
  decide

/-- C8: load_txt_files_to_db raises the engine-not-configured error
exactly when invoked before set_engine injected an engine, and in that
case it raises before issuing any store statement, leaving the database
untouched. -/
theorem engine_not_set_fails_fast (engine : Option Unit) (lock : Bool)
    (dir : CorpusDir) (db : DB) :
    ((load_txt_files_to_db engine lock dir db).result = .error .engineNotSet
        ↔ engine = none) ∧
    (load_txt_files_to_db none lock dir db).ops = [] ∧
    (load_txt_files_to_db none lock dir db).db = db := by
  refine ⟨⟨?_, ?_⟩, rfl, rfl⟩
  · intro h
    cases engine with
    | none => rfl
    | some u =>
      exfalso
      rw [load_txt_files_to_db] at h
      rcases hrb : runBody db lock dir with ⟨r, ops⟩
      rw [hrb] at h
      cases r with
      | ok p =>
        rcases p with ⟨db2, v⟩
        simp at h
      | error e2 =>
        exact runBody_error_not_engineNotSet hrb (Except.error.inj h)
  · rintro rfl
    rfl

/-- Witness for C8: with no engine injected the call raises the
engine-not-set error having issued no store statement. -/
theorem engine_not_set_fails_fast_witness :
    (load_txt_files_to_db none true (.dir []) freshDB).result
      = .error .engineNotSet ∧
    (load_txt_files_to_db none true (.dir []) freshDB).ops = [] :=
  ⟨(engine_not_set_fails_fast none true (.dir []) freshDB).1.mpr rfl,
   (engine_not_set_fails_fast none true (.dir []) freshDB).2.1⟩

/-- C10: only UTF-8 decode failures are recovered per-file: a matching
corpus file whose read fails with an OS-level error makes the whole
bootstrap surface an error, and the transaction rolls back every write of
the attempt, leaving the committed database state unchanged. -/
theorem os_error_aborts_bootstrap (db : DB) (files : List TxtFile) (f : TxtFile)
    (hmem : f ∈ files) (htxt : isTxt f = true) (hos : f.read = ReadOutcome.osError) :
    (∃ e, (load_txt_files_to_db (some ()) true (.dir files) db).result = .error e) ∧
    (load_txt_files_to_db (some ()) true (.dir files) db).db = db := by
  rcases hrb : runBody db true (.dir files) with ⟨r, ops⟩
  cases r with
  | ok p =>
    exfalso
    rcases p with ⟨db2, v⟩
    have hb : bodyAfterLock db (.dir files) [.tryAdvisoryLock] = (.ok (db2, v), ops) := hrb
    rw [bodyAfterLock] at hb
    split at hb
    · cases hb
    case _ db4 ops3 hc =>
      rw [corpusStep] at hc
      exact loadFiles_ok_no_osError hc f (mem_globTxtSorted hmem htxt) hos
  | error e =>
    have hload : load_txt_files_to_db (some ()) true (.dir files) db
        = ⟨.error e, db, ops⟩ := by
      rw [load_txt_files_to_db, hrb]
    rw [hload]
    exact ⟨⟨e, rfl⟩, rfl⟩

/-- Witness for C10: a one-file directory whose file fails with an
OS-level read error makes the bootstrap error out and commit nothing. -/
theorem os_error_aborts_bootstrap_witness :
    (∃ e, (load_txt_files_to_db (some ()) true
        (.dir [⟨("c.txt"), .osError⟩]) freshDB).result = .error e) ∧
    (load_txt_files_to_db (some ()) true
        (.dir [⟨("c.txt"), .osError⟩]) freshDB).db = freshDB :=
  os_error_aborts_bootstrap freshDB [⟨("c.txt"), .osError⟩] ⟨("c.txt"), .osError⟩
    (by decide) (by decide) (by decide)

/-- C4 amended: running the corpus-load step twice in sequence with the
directory unchanged leaves the document table identical to running it once
(no duplicate rows, no id churn and no content change for existing
filenames); the final filename-to-content association is determined by the
directory, but row ids may depend on prior loads. -/
theorem corpus_reload_idempotent (files : List TxtFile) (db db1 : DB) (ops1 : List StoreOp)
    (hnd : (files.map TxtFile.name).Nodup)
    (h1 : corpusStep db (.dir files) [] = (.ok db1, ops1)) :
    ∃ db2 ops2, corpusStep db1 (.dir files) [] = (.ok db2, ops2) ∧
      db2.documents = db1.documents := by
  rw [corpusStep] at h1 ⊢
  have hndS : ((globTxtSorted files).map TxtFile.name).Nodup := globTxtSorted_names_nodup hnd
  exact loadFiles_update_only (loadFiles_ok_no_osError h1) (loadFiles_final_rows hndS h1)

/-- Witness for C4 amended: reloading the two-file directory over the
table it produced leaves the documents unchanged. -/
theorem corpus_reload_idempotent_witness :
    ∃ db2 ops2,
      corpusStep
          { emptyTableDB with
            documents := [⟨1, ("a.txt"), ("X")⟩, ⟨2, ("b.txt"), ("Y")⟩]
            docSeq := ⟨2, true⟩ }
          (.dir [⟨("a.txt"), .ok ("X")⟩, ⟨("b.txt"), .ok ("Y")⟩]) [] = (.ok db2, ops2) ∧
      db2.documents
        = ({ emptyTableDB with
             documents := [⟨1, ("a.txt"), ("X")⟩, ⟨2, ("b.txt"), ("Y")⟩]
             docSeq := ⟨2, true⟩ } : DB).documents :=
  corpus_reload_idempotent [⟨("a.txt"), .ok ("X")⟩, ⟨("b.txt"), .ok ("Y")⟩] emptyTableDB
    { emptyTableDB with
      documents := [⟨1, ("a.txt"), ("X")⟩, ⟨2, ("b.txt"), ("Y")⟩]
      docSeq := ⟨2, true⟩ }
    [.upsert ("a.txt"), .upsert ("b.txt")]
    (by decide) (by decide)

/-- C7 amended: load_txt_files_to_db returns no count: every normal return
yields None.  The number of files processed is instead reflected in the
store: a successful corpus load into an empty documents table adds exactly
one row per matching-extension file that decodes as UTF-8. -/
theorem loader_none_return_and_row_count
    (engine : Option Unit) (lock : Bool) (dir : CorpusDir) (db db1 : DB)
    (files : List TxtFile) (ops1 : List StoreOp) (v : Option Nat)
    (hret : (load_txt_files_to_db engine lock dir db).result = .ok v)
    (hnd : (files.map TxtFile.name).Nodup)
    (h1 : corpusStep emptyTableDB (.dir files) [] = (.ok db1, ops1)) :
    v = none ∧
    db1.documents.length = ((files.filter isTxt).filter isDecodable).length := by
  constructor
  · cases engine with
    | none => simp [load_txt_files_to_db] at hret
    | some u =>
      rw [load_txt_files_to_db] at hret
      rcases hrb : runBody db lock dir with ⟨r, ops⟩
      rw [hrb] at hret
      cases r with
      | ok p =>
        rcases p with ⟨db2, v2⟩
        have hv : v2 = v := Except.ok.inj hret
        rw [← hv]
        exact runBody_ok_value_none hrb
      | error e => simp at hret
  · rw [corpusStep] at h1
    have hndS := globTxtSorted_names_nodup hnd
    have hfresh : ∀ f ∈ globTxtSorted files,
        hasFilename emptyTableDB.documents f.name = false := fun f _ => rfl
    have hlen := loadFiles_insert_length hndS hfresh h1
    rw [hlen, globTxtSorted,
      ((sortFiles_perm (files.filter isTxt)).filter isDecodable).length_eq]
    exact Nat.zero_add _

/-- Witness for C7 amended: the two-file run returns None and stores two
rows, one per decodable matching file. -/
theorem loader_none_return_and_row_count_witness :
    (none : Option Nat) = none ∧
    ({ emptyTableDB with
       documents := [⟨1, ("a.txt"), ("X")⟩, ⟨2, ("b.txt"), ("Y")⟩]
       docSeq := ⟨2, true⟩ } : DB).documents.length
      = (([⟨("a.txt"), .ok ("X")⟩, ⟨("b.txt"), .ok ("Y")⟩].filter isTxt).filter
          isDecodable).length :=
  loader_none_return_and_row_count (some ()) true
    (.dir [⟨("a.txt"), .ok ("X")⟩, ⟨("b.txt"), .ok ("Y")⟩]) freshDB
    { emptyTableDB with
      documents := [⟨1, ("a.txt"), ("X")⟩, ⟨2, ("b.txt"), ("Y")⟩]
      docSeq := ⟨2, true⟩ }
    [⟨("a.txt"), .ok ("X")⟩, ⟨("b.txt"), .ok ("Y")⟩]
    [.upsert ("a.txt"), .upsert ("b.txt")] none
    (by decide) (by decide) (by decide)

/-! ### Concurrency model for the bootstrap protocol

Each replica process opens its own database session and invokes
load_txt_files_to_db once at startup.  The advisory lock taken with
pg_try_advisory_lock is session scoped: PostgreSQL releases it only when
the session closes or on an explicit unlock, and the module does neither
during the startup window (the pooled connection outlives the
transaction), so an acquired lock stays held for the whole modeled run.
A losing invocation issues no statement beyond the lock attempt and never
touches the tables, so the winning session is the only one reading or
writing the database; its transaction body is therefore modeled as one
atomic step that runs bodyAfterLock over the shared committed state and
commits the result (or rolls back on error), exactly as in the sequential
embedding. -/

/-- What one bootstrap invocation produced: the value returned or error
raised, and the trace of store statements it issued. -/
structure ProcOutcome where
  result : Except LoadError (Option Nat)
  ops : List StoreOp
  deriving Repr, DecidableEq

/-- Phase of one bootstrap invocation: before the lock attempt, holding
the lock with the body still to run, or finished. -/
inductive ProcPhase where
  | start
  | acquired
  | done (out : ProcOutcome)
  deriving Repr, DecidableEq

/-- Shared cluster state: the advisory lock (pid of the session holding
it), the committed database, and the phase of every invocation. -/
structure Cluster where
  lock : Option Nat
  db : DB
  procs : List ProcPhase
  deriving Repr, DecidableEq

/-- Outcome of an invocation that lost the lock race: it returns normally
having issued nothing but the lock attempt. -/
def loserOutcome : ProcOutcome := ⟨.ok none, [.tryAdvisoryLock]⟩

/-- Outcome and committed state of the invocation that runs the write
path over committed database state db. -/
def winnerRun (db : DB) (dir : CorpusDir) : ProcOutcome × DB :=
  match bodyAfterLock db dir [.tryAdvisoryLock] with
  | (.ok (db2, v), ops) => (⟨.ok v, ops⟩, db2)
  | (.error e, ops) => (⟨.error e, ops⟩, db)

/-- One scheduler step: invocation pid takes its next atomic action.  A
starting invocation atomically attempts the advisory lock; a lock holder
runs the bootstrap body and commits; finished invocations and invalid
pids do nothing. -/
def stepProc (dir : CorpusDir) (c : Cluster) (pid : Nat) : Cluster :=
  match c.procs[pid]? with
  | none => c
  | some .start =>
    match c.lock with
    | some _ => { c with procs := c.procs.set pid (.done loserOutcome) }
    | none => { c with lock := some pid, procs := c.procs.set pid .acquired }
  | some .acquired =>
    { c with db := (winnerRun c.db dir).2
             procs := c.procs.set pid (.done (winnerRun c.db dir).1) }
  | some (.done _) => c

/-- Run a schedule: each entry lets that invocation take one step. -/
def runSchedule (dir : CorpusDir) (c : Cluster) : List Nat → Cluster
  | [] => c
  | pid :: rest => runSchedule dir (stepProc dir c pid) rest

/-- Initial cluster: lock free, fresh empty store, n invocations. -/
def initCluster (n : Nat) : Cluster := ⟨none, freshDB, List.replicate n .start⟩

/-- Invariant of every reachable cluster state: either nobody reached the
lock yet, or a single winner holds the lock forever, is the only
invocation that ever runs the write path, and every other invocation is
still waiting or has finished as a no-op loser. -/
def ClusterInv (n : Nat) (dir : CorpusDir) (c : Cluster) : Prop :=
  c.procs.length = n ∧
  ((c.lock = none ∧ c.db = freshDB ∧ ∀ j, j < n → c.procs[j]? = some .start) ∨
   (∃ w, w < n ∧ c.lock = some w ∧
      ((c.procs[w]? = some .acquired ∧ c.db = freshDB) ∨
       (c.procs[w]? = some (.done (winnerRun freshDB dir).1) ∧
        c.db = (winnerRun freshDB dir).2)) ∧
      ∀ j, j < n → j ≠ w →
        (c.procs[j]? = some .start ∨ c.procs[j]? = some (.done loserOutcome))))

theorem initCluster_inv (n : Nat) (dir : CorpusDir) : ClusterInv n dir (initCluster n) := by
  refine ⟨List.length_replicate n _, Or.inl ⟨rfl, rfl, ?_⟩⟩
  intro j hj
  simp [initCluster, List.getElem?_replicate, hj]

theorem stepProc_inv {n : Nat} {dir : CorpusDir} {c : Cluster} (pid : Nat)
    (h : ClusterInv n dir c) : ClusterInv n dir (stepProc dir c pid) := by
  obtain ⟨hlen, hrest⟩ := h
  rw [stepProc]
  cases hp : c.procs[pid]? with
  | none => exact ⟨hlen, hrest⟩
  | some ph =>
    have hpidlt : pid < n := hlen ▸ (List.getElem?_eq_some.mp hp).1
    cases ph with
    | start =>
      cases hl : c.lock with
      | none =>
        rcases hrest with ⟨hlock, hdb, hall⟩ | ⟨w, hw, hlw, hwin, hothers⟩
        · refine ⟨by rw [List.length_set]; exact hlen, Or.inr ⟨pid, hpidlt, rfl, ?_, ?_⟩⟩
          · exact Or.inl ⟨List.getElem?_set_eq_of_lt _ (hlen ▸ hpidlt), hdb⟩
          · intro j hj hjp
            rw [List.getElem?_set_ne (fun hc => hjp hc.symm)]
            exact Or.inl (hall j hj)
        · rw [hlw] at hl; cases hl
      | some w0 =>
        rcases hrest with ⟨hlock, hdb, hall⟩ | ⟨w, hw, hlw, hwin, hothers⟩
        · rw [hlock] at hl; cases hl
        · have hpw : pid ≠ w := by
            intro hc
            subst hc
            rcases hwin with ⟨hacq, _⟩ | ⟨hdn, _⟩
            · rw [hp] at hacq; cases Option.some.inj hacq
            · rw [hp] at hdn; cases Option.some.inj hdn
          refine ⟨by rw [List.length_set]; exact hlen,
            Or.inr ⟨w, hw, hl.symm.trans hlw, ?_, ?_⟩⟩
          · rcases hwin with ⟨hacq, hdbf⟩ | ⟨hdn, hdbw⟩
            · exact Or.inl ⟨by rw [List.getElem?_set_ne hpw]; exact hacq, hdbf⟩
            · exact Or.inr ⟨by rw [List.getElem?_set_ne hpw]; exact hdn, hdbw⟩
          · intro j hj hjw
            by_cases hjp : j = pid
            · subst hjp
              rw [List.getElem?_set_eq_of_lt _ (hlen ▸ hpidlt)]
              exact Or.inr rfl
            · rw [List.getElem?_set_ne (fun hc => hjp hc.symm)]
              exact hothers j hj hjw
    | acquired =>
      rcases hrest with ⟨hlock, hdb, hall⟩ | ⟨w, hw, hlw, hwin, hothers⟩
      · exfalso
        have := hall pid hpidlt
        rw [hp] at this
        cases Option.some.inj this
      · have hpw : pid = w := by
          by_contra hc
          rcases hothers pid hpidlt hc with hs | hlo
          · rw [hp] at hs; cases Option.some.inj hs
          · rw [hp] at hlo; cases Option.some.inj hlo
        subst hpw
        rcases hwin with ⟨hacq, hdbf⟩ | ⟨hdn, hdbw⟩
        · refine ⟨by rw [List.length_set]; exact hlen, Or.inr ⟨pid, hw, hlw, ?_, ?_⟩⟩
          · refine Or.inr ⟨?_, by rw [hdbf]⟩
            rw [List.getElem?_set_eq_of_lt _ (hlen ▸ hpidlt), hdbf]
          · intro j hj hjw
            rw [List.getElem?_set_ne (fun hc => hjw hc.symm)]
            exact hothers j hj hjw
        · exfalso
          rw [hp] at hdn
          cases Option.some.inj hdn
    | done out => exact ⟨hlen, hrest⟩

theorem runSchedule_inv {n : Nat} {dir : CorpusDir} {c : Cluster} (sched : List Nat)
    (h : ClusterInv n dir c) : ClusterInv n dir (runSchedule dir c sched) := by
  induction sched generalizing c with
  | nil => exact h
  | cons pid rest ih => exact ih (stepProc_inv pid h)

/-- C9: under every interleaving of N launched bootstrap invocations
against an empty store in which all invocations run to completion,
exactly one invocation acquires the advisory lock and executes the full
schema-creation and corpus-load write path (its trace and result are
those of the bootstrap body run on the fresh store, and its commit is the
only change to the store), while every other invocation observes
lock-not-acquired, returns successfully and issues no statement beyond
the lock attempt: zero writes. -/
theorem bootstrap_mutual_exclusion (n : Nat) (dir : CorpusDir) (sched : List Nat)
    (hn : 2 ≤ n)
    (hdone : ∀ j, j < n → ∃ out,
      (runSchedule dir (initCluster n) sched).procs[j]? = some (.done out)) :
    ∃ w, w < n ∧
      (runSchedule dir (initCluster n) sched).procs[w]?
        = some (.done (winnerRun freshDB dir).1) ∧
      (runSchedule dir (initCluster n) sched).db = (winnerRun freshDB dir).2 ∧
      ∀ j, j < n → j ≠ w →
        (runSchedule dir (initCluster n) sched).procs[j]? = some (.done loserOutcome) := by
  obtain ⟨hlen, hrest⟩ := runSchedule_inv sched (initCluster_inv n dir)
  rcases hrest with ⟨hlock, hdb, hall⟩ | ⟨w, hw, hlw, hwin, hothers⟩
  · exfalso
    obtain ⟨out, hout⟩ := hdone 0 (Nat.lt_of_lt_of_le Nat.zero_lt_two hn)
    rw [hall 0 (Nat.lt_of_lt_of_le Nat.zero_lt_two hn)] at hout
    cases Option.some.inj hout
  · rcases hwin with ⟨hacq, hdbf⟩ | ⟨hdn, hdbw⟩
    · exfalso
      obtain ⟨out, hout⟩ := hdone w hw
      rw [hacq] at hout
      cases Option.some.inj hout
    · refine ⟨w, hw, hdn, hdbw, ?_⟩
      intro j hj hjw
      rcases hothers j hj hjw with hs | hlo
      · exfalso
        obtain ⟨out, hout⟩ := hdone j hj
        rw [hs] at hout
        cases Option.some.inj hout
      · exact hlo

/-- Witness for C9: two invocations, a schedule in which the first
acquires and bootstraps and the second then races: the first carries the
full write-path outcome, the second finishes as a lock-denied no-op. -/
theorem bootstrap_mutual_exclusion_witness :
    ∃ w, w < 2 ∧
      (runSchedule (.dir [⟨("a.txt"), .ok ("X")⟩]) (initCluster 2) [0, 0, 1]).procs[w]?
        = some (.done (winnerRun freshDB (.dir [⟨("a.txt"), .ok ("X")⟩])).1) ∧
      (runSchedule (.dir [⟨("a.txt"), .ok ("X")⟩]) (initCluster 2) [0, 0, 1]).db
        = (winnerRun freshDB (.dir [⟨("a.txt"), .ok ("X")⟩])).2 ∧
      ∀ j, j < 2 → j ≠ w →
        (runSchedule (.dir [⟨("a.txt"), .ok ("X")⟩]) (initCluster 2) [0, 0, 1]).procs[j]?
          = some (.done loserOutcome) :=
  bootstrap_mutual_exclusion 2 (.dir [⟨("a.txt"), .ok ("X")⟩]) [0, 0, 1] (by decide)
    (by
      intro j hj
      interval_cases j
      · exact ⟨(winnerRun freshDB (.dir [⟨("a.txt"), .ok ("X")⟩])).1, by decide⟩
      · exact ⟨loserOutcome, by decide⟩)

end NLPipeline
